import Mathlib

/-!
Shallow embedding of the AI-Expense-Analysis-System repository
(`app.py`: FastAPI relay with key rotation and retry-on-429;
`pdf-csv.py`: bank-statement PDF → CSV extractor) and proofs of the
specification claims about it.

Strings are Lean `String`s; Python string primitives used by the code
(`strip`, `replace(',', '')`, `split`, `'\n'`-split, substring test) are
embedded as executable character-list functions below.
-/

namespace Spec2Proof

/-- `str.strip()`: drop leading and trailing whitespace. -/
def pyStrip (s : String) : String :=
  String.mk (((s.data.dropWhile Char.isWhitespace).reverse.dropWhile Char.isWhitespace).reverse)

/-- `text.replace(',', '')`: remove every comma. -/
def stripCommas (cs : List Char) : List Char := cs.filter (fun c => c ≠ ',')

/-- Helper for `pySplitLines`: accumulate the current line (reversed). -/
def splitNlAux : List Char → List Char → List String
  | [], acc => [String.mk acc.reverse]
  | c :: rest, acc =>
    if c = '\n' then String.mk acc.reverse :: splitNlAux rest []
    else splitNlAux rest (c :: acc)

/-- `text.split('\n')`: split on every newline, keeping empty pieces. -/
def pySplitLines (s : String) : List String := splitNlAux s.data []

/-- Helper for `pySplitWs`: words of a char list, splitting on whitespace runs. -/
def splitWsAux : List Char → List Char → List String
  | [], acc => if acc.isEmpty then [] else [String.mk acc.reverse]
  | c :: rest, acc =>
    if c.isWhitespace then
      if acc.isEmpty then splitWsAux rest [] else String.mk acc.reverse :: splitWsAux rest []
    else splitWsAux rest (c :: acc)

/-- `s.split()` with no argument: whitespace-separated words, empties dropped. -/
def pySplitWs (s : String) : List String := splitWsAux s.data []

/-- `' '.join(row[4].split())`: collapse internal whitespace runs to single spaces. -/
def cleanRemarks (s : String) : String := String.intercalate " " (pySplitWs s)

/-- `pat in s` (Python substring containment), on char lists. -/
def containsSub : List Char → List Char → Bool
  | s, pat =>
    if pat.isPrefixOf s then true
    else match s with
      | [] => false
      | _ :: t => containsSub t pat

/-- `"429" in str(e)`: the retry wrapper's rate-limit test on a message. -/
def has429 (m : String) : Bool := containsSub m.data "429".data

/-! ## `pdf-csv.py`: row validators

`is_date` embeds
`if not text or text == '-': return False; return bool(re.match(r'\d{2}/\d{2}/\d{4}', text))`;
`is_amount` embeds
`if not text or text == '-': return False;
 return bool(re.match(r'^-?\d{1,3}(,\d{3})*(\.\d{2})?$', text.replace(',', '')))`.
The two concrete regexes are embedded as explicit matchers. -/

/-- `re.match(r'\d{2}/\d{2}/\d{4}', text)`: the date pattern anchored at the
start only (anything may follow the ten matched characters). -/
def matchesDatePrefix : List Char → Bool
  | d1 :: d2 :: s1 :: m1 :: m2 :: s2 :: y1 :: y2 :: y3 :: y4 :: _ =>
    d1.isDigit && d2.isDigit && s1 = '/' && m1.isDigit && m2.isDigit && s2 = '/' &&
      y1.isDigit && y2.isDigit && y3.isDigit && y4.isDigit
  | _ => false

/-- `is_date` from `pdf-csv.py`. -/
def is_date (text : String) : Bool :=
  if text = "" || text = "-" then false
  else matchesDatePrefix text.data

/-- `\d{2}$` after a consumed dot: exactly two digits and then the end. -/
def fracEnd : List Char → Bool
  | d1 :: d2 :: rest2 => d1.isDigit && d2.isDigit && rest2.isEmpty
  | _ => false

/-- The tail of the amount regex after the leading digit group:
`(,\d{3})*(\.\d{2})?$`. The three alternatives (comma group, fraction, end)
start with distinct characters, so this deterministic matcher is exactly the
regex's backtracking behaviour. -/
def amountRest : List Char → Bool
  | [] => true
  | c :: rest =>
    if c = ',' then
      match rest with
      | d1 :: d2 :: d3 :: rest2 => d1.isDigit && d2.isDigit && d3.isDigit && amountRest rest2
      | _ => false
    else if c = '.' then fracEnd rest
    else false

/-- One branch of the greedy `\d{1,3}`: take exactly `n` leading digits, then
match the rest of the regex. -/
def amountTake (n : Nat) (cs : List Char) : Bool :=
  decide (n ≤ cs.length) && (cs.take n).all Char.isDigit && amountRest (cs.drop n)

/-- `\d{1,3}(,\d{3})*(\.\d{2})?$`: the regex matches iff some choice of 1–3
leading digits lets the tail match. -/
def amountBody (cs : List Char) : Bool :=
  amountTake 3 cs || amountTake 2 cs || amountTake 1 cs

/-- `^-?\d{1,3}(,\d{3})*(\.\d{2})?$`: optional leading minus, then the body. -/
def amountMatch : List Char → Bool
  | [] => amountBody []
  | c :: rest => if c = '-' then amountBody rest else amountBody (c :: rest)

/-- `is_amount` from `pdf-csv.py`: the empty/dash guard is applied to the
original text, then the regex runs on the comma-stripped text. -/
def is_amount (text : String) : Bool :=
  if text = "" || text = "-" then false
  else amountMatch (stripCommas text.data)

/-! ### Spec-side numeric forms (for the refinement claims about `is_amount`)

These definitions follow the specification's words, to be compared with the
embedded `is_amount`: "optional minus sign, then one or more digits, then an
optional two-digit fractional part `.dd` (after commas are stripped before
matching)", and the corrected 1–3-digit variant. -/

/-- An optional exactly-two-digit fractional part ending the string:
`(\.\d\d)?$`. -/
def specFracOpt : List Char → Bool
  | [] => true
  | c :: rest => if c = '.' then fracEnd rest else false

/-- Spec's words: one or more digits, then an optional `.dd`. -/
def specDigitsFrac (cs : List Char) : Bool :=
  !(cs.takeWhile Char.isDigit).isEmpty && specFracOpt (cs.dropWhile Char.isDigit)

/-- Spec's words: optional minus, then digits and optional fraction. -/
def specNumBody : List Char → Bool
  | [] => specDigitsFrac []
  | c :: rest => if c = '-' then specDigitsFrac rest else specDigitsFrac (c :: rest)

/-- The spec's claimed acceptance set of `is_amount`: after stripping commas,
optional minus + one or more digits + optional `.dd`. -/
def specNumericForm (s : String) : Bool := specNumBody (stripCommas s.data)

/-- The corrected digit bound: one to three digits, then an optional `.dd`. -/
def specDigits13Frac (cs : List Char) : Bool :=
  let ds := cs.takeWhile Char.isDigit
  decide (1 ≤ ds.length) && decide (ds.length ≤ 3) && specFracOpt (cs.dropWhile Char.isDigit)

/-- Corrected form: optional minus, then one to three digits and optional
fraction. -/
def specNum13Body : List Char → Bool
  | [] => specDigits13Frac []
  | c :: rest => if c = '-' then specDigits13Frac rest else specDigits13Frac (c :: rest)

/-- The corrected acceptance set of `is_amount`: after stripping commas,
optional minus + one to three digits + optional `.dd`. -/
def specNum13Form (s : String) : Bool := specNum13Body (stripCommas s.data)

/-! ## `pdf-csv.py`: `extract_transactions`

A PDF is modelled as a list of pages; each page offers the outcome of
`page.extract_tables()` (a list of tables, each a list of rows, each row a
list of cells that may be `None`) and of `page.extract_text()` (`None` or a
string). If the tables list is non-empty the table path runs, otherwise the
text-fallback path. The one statement in the scan that can raise outside a
per-row handler is `table[0]` on an empty table; the surrounding
`try`/`except` then abandons the scan and returns the empty list, which the
embedding models with `Option` (`none` = aborted scan). -/

/-- One extracted transaction record (all fields raw strings). -/
structure Txn where
  sNo : String
  valueDate : String
  txnDate : String
  chequeNumber : String
  remarks : String
  withdrawal : String
  deposit : String
  balance : String
deriving DecidableEq

/-- The 8 expected header labels (`headers` in `pdf-csv.py`). -/
def headers : List String :=
  ["S No.", "Value Date", "Transaction Date", "Cheque Number", "Transaction Remarks",
   "Withdrawal Amount (INR)", "Deposit Amount (INR)", "Balance (INR)"]

/-- One page of the modelled PDF. -/
structure Page where
  tables : List (List (List (Option String)))
  text : Option String

/-- Build the transaction dict from a table row (`row[k].strip()`, with the
remarks cell cleaned by `' '.join(row[4].split())`). Only invoked on rows
with at least 8 non-`None` cells. -/
def rowToTxn (row : List (Option String)) : Txn :=
  { sNo := pyStrip ((row.getD 0 none).getD "")
    valueDate := pyStrip ((row.getD 1 none).getD "")
    txnDate := pyStrip ((row.getD 2 none).getD "")
    chequeNumber := pyStrip ((row.getD 3 none).getD "")
    remarks := cleanRemarks ((row.getD 4 none).getD "")
    withdrawal := pyStrip ((row.getD 5 none).getD "")
    deposit := pyStrip ((row.getD 6 none).getD "")
    balance := pyStrip ((row.getD 7 none).getD "") }

/-- Table path, per row: keep the row only if it has at least 8 cells, none
`None`, and the built record passes the `is_date`/`is_amount` validation. -/
def processRow (acc : List Txn) (row : List (Option String)) : List Txn :=
  if 8 ≤ row.length && row.all Option.isSome then
    if is_date (rowToTxn row).txnDate && is_amount (rowToTxn row).balance then
      acc ++ [rowToTxn row]
    else acc
  else acc

/-- Table path, per table: `table[0]` on an empty table raises (modelled as
`none`); otherwise the first row is dropped when any of its cells equals one
of the 8 header labels, and the remaining rows are processed in order. -/
def processTable (acc : List Txn) (table : List (List (Option String))) :
    Option (List Txn) :=
  match table with
  | [] => none
  | r0 :: rest =>
    let body := if headers.any (fun h => r0.any (fun c => c = some h)) then rest
                else r0 :: rest
    some (body.foldl processRow acc)

/-- Table path, over all tables of a page. -/
def processTables (acc : List Txn) : List (List (List (Option String))) → Option (List Txn)
  | [] => some acc
  | t :: ts => match processTable acc t with
    | none => none
    | some acc2 => processTables acc2 ts

/-- `re.match(r'^\d+\s*$', line)`: one or more digits then optional trailing
whitespace. -/
def isSerialLine (s : String) : Bool :=
  !(s.data.takeWhile Char.isDigit).isEmpty &&
    (s.data.dropWhile Char.isDigit).all Char.isWhitespace

/-- Build the transaction dict from an accumulated text group
(`transaction_data[0..3]`, `' '.join(transaction_data[4:-3])`, and the last
three lines). Only invoked on groups of at least 8 lines. -/
def mkTextTxn (d : List String) : Txn :=
  { sNo := d.getD 0 ""
    valueDate := d.getD 1 ""
    txnDate := d.getD 2 ""
    chequeNumber := d.getD 3 ""
    remarks := String.intercalate " " ((d.drop 4).take (d.length - 7))
    withdrawal := d.getD (d.length - 3) ""
    deposit := d.getD (d.length - 2) ""
    balance := d.getD (d.length - 1) "" }

/-- Closing a text group: append it only if it accumulated at least 8 lines
and the built record passes the `is_date`/`is_amount` validation. -/
def closeGroup (acc : List Txn) (d : List String) : List Txn :=
  if 8 ≤ d.length then
    if is_date (mkTextTxn d).txnDate && is_amount (mkTextTxn d).balance then
      acc ++ [mkTextTxn d]
    else acc
  else acc

/-- The text-fallback line loop: `cur` is `current_transaction`, `d` is
`transaction_data`. Blank lines are skipped; a serial line closes the open
group (if any) and starts a new one; other lines accumulate only into an
open group; the end of the page closes the open group. -/
def textLoop (acc : List Txn) (cur : Bool) (d : List String) :
    List String → List Txn
  | [] => if cur then closeGroup acc d else acc
  | line :: rest =>
    if pyStrip line = "" then textLoop acc cur d rest
    else if isSerialLine (pyStrip line) then
      textLoop (if cur then closeGroup acc d else acc) true [pyStrip line] rest
    else if cur then textLoop acc cur (d ++ [pyStrip line]) rest
    else textLoop acc cur d rest

/-- The whole text-fallback path for one page's extracted text. -/
def textFallback (acc : List Txn) (text : String) : List Txn :=
  textLoop acc false [] (pySplitLines text)

/-- Spec-side reconstruction of the transaction groups the text-fallback
loop accumulates, following the spec's words ("a line consisting solely of
a number starts a new transaction group; all subsequent non-empty lines
accumulate into that group's cell list until the next serial-number line or
end of page"). It emits every closed group, in order, with no retention
filtering — to be compared with `textLoop`'s output. -/
def textGroupsAux (cur : Bool) (d : List String) : List String → List (List String)
  | [] => if cur then [d] else []
  | line :: rest =>
    if pyStrip line = "" then textGroupsAux cur d rest
    else if isSerialLine (pyStrip line) then
      (if cur then [d] else []) ++ textGroupsAux true [pyStrip line] rest
    else if cur then textGroupsAux cur (d ++ [pyStrip line]) rest
    else textGroupsAux cur d rest

/-- All transaction groups accumulated from a page's lines. -/
def textGroups (lines : List String) : List (List String) :=
  textGroupsAux false [] lines

/-- The retention test the source applies to a closed group: at least 8
accumulated lines, and the positionally built record passes the
date/amount validation. -/
def keepGroup (g : List String) : Bool :=
  decide (8 ≤ g.length) &&
    (is_date (mkTextTxn g).txnDate && is_amount (mkTextTxn g).balance)

/-- One page: table path when `page.extract_tables()` is non-empty, else the
text fallback (skipped entirely when the text is `None` or empty). -/
def processPage (acc : List Txn) (p : Page) : Option (List Txn) :=
  if !p.tables.isEmpty then processTables acc p.tables
  else match p.text with
    | none => some acc
    | some txt => if txt = "" then some acc else some (textFallback acc txt)

/-- All pages in order. -/
def processPages (acc : List Txn) : List Page → Option (List Txn)
  | [] => some acc
  | p :: ps => match processPage acc p with
    | none => none
    | some acc2 => processPages acc2 ps

/-- `extract_transactions`: scan all pages; on an exception escaping the page
loop, return the empty list. -/
def extract_transactions (pages : List Page) : List Txn :=
  match processPages [] pages with
  | some ts => ts
  | none => []

/-! ## `pdf-csv.py`: `save_to_csv` and `main`

`save_to_csv` returns immediately, writing nothing, when the transaction
list is empty; otherwise it cleans the data inside a `try` and writes the
CSV, logging (and writing nothing) if any cleaning step raises. The date
conversions use `errors='coerce'` and never raise; the only raising steps
are the three `astype(float)` conversions, each applied after replacing
empty cells by `'0.0'` (withdrawal/deposit only) and stripping commas.
`pyFloatOk` models which strings Python's `float()` accepts, restricted to
plain decimal forms (the `inf`/`nan`/exponent forms it also accepts never
tighten this model's verdict on the strings at issue here). -/

/-- Strip one optional leading sign character. -/
def pyStripSign : List Char → List Char
  | [] => []
  | c :: r => if c = '+' || c = '-' then r else c :: r

/-- The digits-and-dot core of a float literal: digits with an optional dot,
at least one digit present overall. -/
def pyFloatCore (cs : List Char) : Bool :=
  let intPart := cs.takeWhile Char.isDigit
  match cs.dropWhile Char.isDigit with
  | [] => !intPart.isEmpty
  | c :: frac =>
    c = '.' && (!intPart.isEmpty || !frac.isEmpty) && frac.all Char.isDigit

/-- Acceptance of Python `float(s)` on plain decimal literals: optional
surrounding whitespace, optional sign, then digits with an optional dot
such that at least one digit is present. -/
def pyFloatOk (s : String) : Bool :=
  pyFloatCore (pyStripSign
    (((s.data.dropWhile Char.isWhitespace).reverse.dropWhile Char.isWhitespace).reverse))

/-- `df[col].replace('', '0.0')` on one cell. -/
def pyReplaceEmpty (s : String) : String := if s = "" then "0.0" else s

/-- The withdrawal/deposit cleaning step succeeds on a cell iff, after the
empty-cell default and comma stripping, `float()` accepts it. -/
def amountCellOk (s : String) : Bool :=
  pyFloatOk (String.mk (stripCommas (pyReplaceEmpty s).data))

/-- The balance cleaning step: no empty-cell default, commas stripped, then
`float()`. -/
def balanceCellOk (s : String) : Bool :=
  pyFloatOk (String.mk (stripCommas s.data))

/-- `save_to_csv`: `none` means no output file was produced (either the
early return on an empty list, or an exception during cleaning); `some ts`
means the file was written from the records `ts`. -/
def save_to_csv (transactions : List Txn) : Option (List Txn) :=
  if transactions.isEmpty then none
  else if transactions.all (fun t =>
        amountCellOk t.withdrawal && amountCellOk t.deposit && balanceCellOk t.balance) then
    some transactions
  else none

/-- Outcome of one run of `main`. -/
inductive RunResult where
  | noTransactions
  | saved (file : Option (List Txn))
deriving DecidableEq

/-- `main`: extract, then save when anything was extracted, else report that
no transactions were found. -/
def main (pages : List Page) : RunResult :=
  let ts := extract_transactions pages
  if ts.isEmpty then .noTransactions else .saved (save_to_csv ts)

/-! ## `app.py`: key rotation, retry wrapper, endpoints -/

/-- A raised Python exception as the relay sees it: FastAPI's
`HTTPException(status_code, detail)` or any other exception carrying its
message. -/
inductive PyExc where
  | httpExc (status : Nat) (detail : String)
  | exc (msg : String)
deriving DecidableEq

/-- `str(e)`: an `HTTPException` prints as `"<status>: <detail>"`, any other
exception prints its message. -/
def excStr : PyExc → String
  | .httpExc s d => toString s ++ ": " ++ d
  | .exc m => m

/-- The exhausted-retries signal raised after the loop in `safe_generate`. -/
def exhaustedExc : PyExc :=
  .httpExc 429 "All API keys are rate-limited. Please try again later."

/-- The retry loop of `safe_generate`, instrumented with the number of calls
made to the wrapped operation: `op i` is the outcome of the `i`-th call
(0-indexed), `n` the remaining attempts. A success returns it; a failure
whose message contains `"429"` consumes an attempt and retries; any other
failure is re-raised at once; an exhausted loop raises `exhaustedExc`. -/
def safeGenAux {α : Type} (op : Nat → Except PyExc α) : Nat → Nat → Except PyExc α × Nat
  | _, 0 => (.error exhaustedExc, 0)
  | i, n + 1 =>
    match op i with
    | .ok a => (.ok a, 1)
    | .error e =>
      if has429 (excStr e) then
        let r := safeGenAux op (i + 1) n
        (r.1, r.2 + 1)
      else (.error e, 1)

/-- `safe_generate(model_func, *args, retries=3)`: the result together with
the number of attempts actually made. -/
def safe_generate {α : Type} (op : Nat → Except PyExc α) (retries : Nat := 3) :
    Except PyExc α × Nat :=
  safeGenAux op 0 retries

/-- The `/analyze` handler around `safe_generate`: any exception escaping the
wrapper — including the `HTTPException(429)` it raises on exhaustion — is
caught by `except Exception` and re-raised as a 500. -/
def analyze_transaction {α : Type} (op : Nat → Except PyExc α) : Except PyExc α :=
  match (safe_generate op).1 with
  | .ok a => .ok a
  | .error e => .error (.httpExc 500 ("Categorization failed: " ++ excStr e))

/-- The `/analyze_insights` handler: identical shape, different detail text. -/
def analyze_insights {α : Type} (op : Nat → Except PyExc α) : Except PyExc α :=
  match (safe_generate op).1 with
  | .ok a => .ok a
  | .error e => .error (.httpExc 500 ("Insights generation failed: " ++ excStr e))

/-- HTTP status of the response FastAPI sends for a handler outcome: a
returned value is 200, a raised `HTTPException` keeps its status, any other
exception hits the global handler and becomes 500. -/
def responseStatus {α : Type} : Except PyExc α → Nat
  | .ok _ => 200
  | .error (.httpExc s _) => s
  | .error (.exc _) => 500

/-- `itertools.cycle(API_KEYS)` + `next`: the cursor state is the number of
keys handed out so far; `get_genai_model` draws the next key and configures
the client with it, unconditionally, before every model call. -/
def get_genai_model (keys : List String) (cursor : Nat) : String × Nat :=
  (keys.getD (cursor % keys.length) "", cursor + 1)

/-- Cursor value after `n` sequential calls starting from a fresh cycle. -/
def cursorAfter (keys : List String) : Nat → Nat
  | 0 => 0
  | n + 1 => (get_genai_model keys (cursorAfter keys n)).2

/-- The key the `i`-th call (1-indexed) configures the client with. -/
def keyOfCall (keys : List String) (i : Nat) : String :=
  (get_genai_model keys (cursorAfter keys (i - 1))).1

/-! ## Lemmas about the amount regex -/

lemma comma_not_mem_stripCommas (l : List Char) : ',' ∉ stripCommas l := by
  intro h
  have h2 := (List.mem_filter.mp h).2
  simp at h2

lemma takeWhile_eq_take_of (n : Nat) (cs : List Char) (h1 : n ≤ cs.length)
    (h2 : (cs.take n).all Char.isDigit = true)
    (h3 : ∀ c, (cs.drop n).head? = some c → c.isDigit = false) :
    cs.takeWhile Char.isDigit = cs.take n ∧ cs.dropWhile Char.isDigit = cs.drop n := by
  induction n generalizing cs with
  | zero =>
    simp only [List.take_zero, List.drop_zero] at *
    cases cs with
    | nil => simp
    | cons c r =>
      have hc := h3 c (by simp)
      simp [List.takeWhile_cons, List.dropWhile_cons, hc]
  | succ m ih =>
    cases cs with
    | nil => simp at h1
    | cons c r =>
      simp only [List.take_succ_cons, List.all_cons, Bool.and_eq_true] at h2
      obtain ⟨hc, hr⟩ := h2
      simp only [List.drop_succ_cons] at h3
      have hmr := ih r (by simpa using h1) hr h3
      simp [List.takeWhile_cons, List.dropWhile_cons, hc, hmr.1, hmr.2]

lemma take_drop_takeWhile (cs : List Char) :
    cs.take (cs.takeWhile Char.isDigit).length = cs.takeWhile Char.isDigit ∧
    cs.drop (cs.takeWhile Char.isDigit).length = cs.dropWhile Char.isDigit := by
  have h := List.takeWhile_append_dropWhile Char.isDigit cs
  constructor
  · nth_rewrite 2 [← h]
    exact List.take_left ..
  · nth_rewrite 2 [← h]
    exact List.drop_left ..

lemma amountRest_eq_specFracOpt (cs : List Char) (h : ',' ∉ cs) :
    amountRest cs = specFracOpt cs := by
  cases cs with
  | nil => rfl
  | cons c rest =>
    have hc : ¬c = ',' := by
      intro he
      exact h (he ▸ List.mem_cons_self c rest)
    have hL : amountRest (c :: rest) = if c = '.' then fracEnd rest else false := by
      conv_lhs => unfold amountRest
      rw [if_neg hc]
    rw [hL, specFracOpt]

lemma specFracOpt_shape (l : List Char) (h : specFracOpt l = true) :
    l = [] ∨ ∃ d1 d2, l = ['.', d1, d2] ∧ d1.isDigit = true ∧ d2.isDigit = true := by
  cases l with
  | nil => exact Or.inl rfl
  | cons c rest =>
    right
    by_cases hc : c = '.'
    · rw [specFracOpt, if_pos hc] at h
      cases rest with
      | nil => exact absurd h (by decide)
      | cons d1 r1 =>
        cases r1 with
        | nil =>
          rw [show fracEnd [d1] = false from rfl] at h
          exact absurd h (by simp)
        | cons d2 r2 =>
          simp only [fracEnd, Bool.and_eq_true] at h
          obtain ⟨⟨h1, h2⟩, h3⟩ := h
          have hr2 : r2 = [] := by simpa using h3
          exact ⟨d1, d2, by rw [hc, hr2], h1, h2⟩
    · rw [specFracOpt, if_neg hc] at h
      exact absurd h (by simp)

lemma specFracOpt_head_not_digit (l : List Char) (h : specFracOpt l = true) :
    ∀ c, l.head? = some c → c.isDigit = false := by
  intro c hc
  rcases specFracOpt_shape l h with he | ⟨d1, d2, he, -, -⟩
  · rw [he] at hc
    simp at hc
  · rw [he] at hc
    simp only [List.head?_cons, Option.some.injEq] at hc
    rw [← hc]
    decide

lemma amountTake_imp (n : Nat) (cs : List Char) (h : ',' ∉ cs) (hn1 : 1 ≤ n) (hn3 : n ≤ 3)
    (ht : amountTake n cs = true) : specDigits13Frac cs = true := by
  unfold amountTake at ht
  simp only [Bool.and_eq_true, decide_eq_true_eq] at ht
  obtain ⟨⟨hlen, hdig⟩, hrest⟩ := ht
  have hdropfree : ',' ∉ cs.drop n := fun hm => h (List.mem_of_mem_drop hm)
  rw [amountRest_eq_specFracOpt _ hdropfree] at hrest
  obtain ⟨e1, e2⟩ :=
    takeWhile_eq_take_of n cs hlen hdig (specFracOpt_head_not_digit _ hrest)
  unfold specDigits13Frac
  simp only [Bool.and_eq_true, decide_eq_true_eq]
  refine ⟨⟨?_, ?_⟩, ?_⟩
  · rw [e1, List.length_take]
    omega
  · rw [e1, List.length_take]
    omega
  · rw [e2]
    exact hrest

lemma specDigits13Frac_imp (cs : List Char) (h : ',' ∉ cs)
    (h' : specDigits13Frac cs = true) : amountBody cs = true := by
  unfold specDigits13Frac at h'
  simp only [Bool.and_eq_true, decide_eq_true_eq] at h'
  obtain ⟨⟨h1, h3⟩, hfrac⟩ := h'
  obtain ⟨e1, e2⟩ := take_drop_takeWhile cs
  have hlen : (cs.takeWhile Char.isDigit).length ≤ cs.length := by
    have hpre := List.takeWhile_append_dropWhile Char.isDigit cs
    have := congrArg List.length hpre
    simp only [List.length_append] at this
    omega
  have hdwfree : ',' ∉ cs.dropWhile Char.isDigit := by
    intro hm
    apply h
    have hpre := List.takeWhile_append_dropWhile Char.isDigit cs
    rw [← hpre]
    exact List.mem_append.mpr (Or.inr hm)
  have htake : amountTake (cs.takeWhile Char.isDigit).length cs = true := by
    unfold amountTake
    simp only [Bool.and_eq_true, decide_eq_true_eq]
    refine ⟨⟨hlen, ?_⟩, ?_⟩
    · rw [e1]
      exact List.all_takeWhile ..
    · rw [e2, amountRest_eq_specFracOpt _ hdwfree]
      exact hfrac
  have hk : (cs.takeWhile Char.isDigit).length = 1 ∨ (cs.takeWhile Char.isDigit).length = 2 ∨
      (cs.takeWhile Char.isDigit).length = 3 := by omega
  unfold amountBody
  rcases hk with hk | hk | hk <;> rw [hk] at htake <;> simp [htake]

lemma amountBody_eq_13 (cs : List Char) (h : ',' ∉ cs) :
    amountBody cs = specDigits13Frac cs := by
  cases hb : amountBody cs with
  | false =>
    cases hs : specDigits13Frac cs with
    | false => rfl
    | true => rw [← hb, specDigits13Frac_imp cs h hs]
  | true =>
    unfold amountBody at hb
    simp only [Bool.or_eq_true] at hb
    symm
    rcases hb with (h3 | h2) | h1
    · exact amountTake_imp 3 cs h (by omega) (by omega) h3
    · exact amountTake_imp 2 cs h (by omega) (by omega) h2
    · exact amountTake_imp 1 cs h (by omega) (by omega) h1

lemma amountMatch_eq_13 (cs : List Char) (h : ',' ∉ cs) :
    amountMatch cs = specNum13Body cs := by
  cases cs with
  | nil => decide
  | cons c rest =>
    have hrest : ',' ∉ rest := fun hm => h (List.mem_cons_of_mem c hm)
    by_cases hc : c = '-'
    · simp only [amountMatch, specNum13Body, if_pos hc]
      exact amountBody_eq_13 rest hrest
    · simp only [amountMatch, specNum13Body, if_neg hc]
      exact amountBody_eq_13 (c :: rest) h

lemma is_amount_eq_13 (s : String) : is_amount s = specNum13Form s := by
  by_cases h1 : s = ""
  · rw [h1]
    decide
  by_cases h2 : s = "-"
  · rw [h2]
    decide
  · simp only [is_amount, specNum13Form, h1, h2]
    simp only [decide_False, Bool.or_self, Bool.false_eq_true, if_false]
    exact amountMatch_eq_13 _ (comma_not_mem_stripCommas s.data)

lemma specDigits13Frac_imp_DigitsFrac (cs : List Char)
    (h : specDigits13Frac cs = true) : specDigitsFrac cs = true := by
  unfold specDigits13Frac at h
  unfold specDigitsFrac
  simp only [Bool.and_eq_true, decide_eq_true_eq] at h
  obtain ⟨⟨h1, -⟩, h2⟩ := h
  rw [Bool.and_eq_true]
  refine ⟨?_, h2⟩
  cases hE : (cs.takeWhile Char.isDigit) with
  | nil => rw [hE] at h1; simp at h1
  | cons a b => rfl

lemma specNum13_imp_numeric (s : String) (h : specNum13Form s = true) :
    specNumericForm s = true := by
  unfold specNum13Form at h
  unfold specNumericForm
  cases hcs : stripCommas s.data with
  | nil => rw [hcs] at h; exact absurd h (by decide)
  | cons c rest =>
    rw [hcs] at h
    by_cases hc : c = '-'
    · rw [specNum13Body, if_pos hc] at h
      rw [specNumBody, if_pos hc]
      exact specDigits13Frac_imp_DigitsFrac rest h
    · rw [specNum13Body, if_neg hc] at h
      rw [specNumBody, if_neg hc]
      exact specDigits13Frac_imp_DigitsFrac (c :: rest) h

/-! ## Invariant of the extractor: every retained record was validated -/

lemma mem_processRow {acc : List Txn} {row : List (Option String)} {t : Txn}
    (h : t ∈ processRow acc row) :
    t ∈ acc ∨ (is_date t.txnDate = true ∧ is_amount t.balance = true) := by
  unfold processRow at h
  split at h
  · split at h
    · rename_i hval
      rcases List.mem_append.mp h with hA | hB
      · exact Or.inl hA
      · obtain rfl : t = rowToTxn row := by simpa using hB
        rw [Bool.and_eq_true] at hval
        exact Or.inr hval
    · exact Or.inl h
  · exact Or.inl h

lemma mem_foldl_processRow (rows : List (List (Option String))) :
    ∀ (acc : List Txn) (t : Txn), t ∈ rows.foldl processRow acc →
      t ∈ acc ∨ (is_date t.txnDate = true ∧ is_amount t.balance = true) := by
  induction rows with
  | nil => exact fun acc t h => Or.inl h
  | cons r rs ih =>
    intro acc t h
    rw [List.foldl_cons] at h
    rcases ih _ t h with hA | hV
    · exact mem_processRow hA
    · exact Or.inr hV

lemma mem_processTable {acc acc2 : List Txn} {table : List (List (Option String))}
    (h : processTable acc table = some acc2) {t : Txn} (ht : t ∈ acc2) :
    t ∈ acc ∨ (is_date t.txnDate = true ∧ is_amount t.balance = true) := by
  cases table with
  | nil => exact absurd h (by simp [processTable])
  | cons r0 rest =>
    unfold processTable at h
    injection h with h
    rw [← h] at ht
    exact mem_foldl_processRow _ acc t ht

lemma mem_processTables (tables : List (List (List (Option String)))) :
    ∀ {acc acc2 : List Txn}, processTables acc tables = some acc2 →
      ∀ {t : Txn}, t ∈ acc2 →
        t ∈ acc ∨ (is_date t.txnDate = true ∧ is_amount t.balance = true) := by
  induction tables with
  | nil =>
    intro acc acc2 h t ht
    unfold processTables at h
    injection h with h
    exact Or.inl (h ▸ ht)
  | cons tb tbs ih =>
    intro acc acc2 h t ht
    unfold processTables at h
    cases htb : processTable acc tb with
    | none => rw [htb] at h; exact absurd h (by simp)
    | some accm =>
      rw [htb] at h
      rcases ih h ht with hmem | hv
      · exact mem_processTable htb hmem
      · exact Or.inr hv

lemma mem_closeGroup {acc : List Txn} {d : List String} {t : Txn}
    (h : t ∈ closeGroup acc d) :
    t ∈ acc ∨ (8 ≤ d.length ∧ t = mkTextTxn d ∧
      is_date t.txnDate = true ∧ is_amount t.balance = true) := by
  unfold closeGroup at h
  split at h
  · rename_i hlen
    split at h
    · rename_i hval
      rcases List.mem_append.mp h with hA | hB
      · exact Or.inl hA
      · obtain rfl : t = mkTextTxn d := by simpa using hB
        rw [Bool.and_eq_true] at hval
        exact Or.inr ⟨hlen, rfl, hval⟩
    · exact Or.inl h
  · exact Or.inl h

lemma mem_textLoop (lines : List String) :
    ∀ {acc : List Txn} {cur : Bool} {d : List String} {t : Txn},
      t ∈ textLoop acc cur d lines →
      t ∈ acc ∨ ∃ g : List String, 8 ≤ g.length ∧ t = mkTextTxn g ∧
        is_date t.txnDate = true ∧ is_amount t.balance = true := by
  induction lines with
  | nil =>
    intro acc cur d t h
    unfold textLoop at h
    cases cur with
    | false => exact Or.inl (by simpa using h)
    | true =>
      rcases mem_closeGroup (by simpa using h) with hA | ⟨hlen, heq, hv⟩
      · exact Or.inl hA
      · exact Or.inr ⟨d, hlen, heq, hv⟩
  | cons line rest ih =>
    intro acc cur d t h
    unfold textLoop at h
    by_cases h1 : pyStrip line = ""
    · rw [if_pos h1] at h
      exact ih h
    rw [if_neg h1] at h
    by_cases h2 : isSerialLine (pyStrip line) = true
    · rw [if_pos h2] at h
      rcases ih h with hmem | hex
      · cases cur with
        | false => exact Or.inl (by simpa using hmem)
        | true =>
          rcases mem_closeGroup (by simpa using hmem) with hA | ⟨hlen, heq, hv⟩
          · exact Or.inl hA
          · exact Or.inr ⟨d, hlen, heq, hv⟩
      · exact Or.inr hex
    · rw [if_neg h2] at h
      cases cur with
      | false =>
        rw [if_neg (by simp)] at h
        exact ih h
      | true =>
        rw [if_pos rfl] at h
        exact ih h

lemma mem_textFallback {acc : List Txn} {text : String} {t : Txn}
    (h : t ∈ textFallback acc text) :
    t ∈ acc ∨ ∃ g : List String, 8 ≤ g.length ∧ t = mkTextTxn g ∧
      is_date t.txnDate = true ∧ is_amount t.balance = true :=
  mem_textLoop _ h

lemma mem_processPage {acc acc2 : List Txn} {p : Page} (h : processPage acc p = some acc2)
    {t : Txn} (ht : t ∈ acc2) :
    t ∈ acc ∨ (is_date t.txnDate = true ∧ is_amount t.balance = true) := by
  unfold processPage at h
  split at h
  · exact mem_processTables _ h ht
  · cases hx : p.text with
    | none =>
      rw [hx] at h
      injection h with h
      exact Or.inl (h ▸ ht)
    | some txt =>
      rw [hx] at h
      dsimp only at h
      by_cases he : txt = ""
      · rw [if_pos he] at h
        injection h with h
        exact Or.inl (h ▸ ht)
      · rw [if_neg he] at h
        injection h with h
        rw [← h] at ht
        rcases mem_textFallback ht with hA | ⟨g, -, -, hv⟩
        · exact Or.inl hA
        · exact Or.inr hv

lemma mem_processPages (pages : List Page) :
    ∀ {acc acc2 : List Txn}, processPages acc pages = some acc2 →
      ∀ {t : Txn}, t ∈ acc2 →
        t ∈ acc ∨ (is_date t.txnDate = true ∧ is_amount t.balance = true) := by
  induction pages with
  | nil =>
    intro acc acc2 h t ht
    unfold processPages at h
    injection h with h
    exact Or.inl (h ▸ ht)
  | cons p ps ih =>
    intro acc acc2 h t ht
    unfold processPages at h
    cases hp : processPage acc p with
    | none => rw [hp] at h; exact absurd h (by simp)
    | some accm =>
      rw [hp] at h
      rcases ih h ht with hmem | hv
      · exact mem_processPage hp hmem
      · exact Or.inr hv

lemma extract_valid {pages : List Page} {t : Txn} (h : t ∈ extract_transactions pages) :
    is_date t.txnDate = true ∧ is_amount t.balance = true := by
  unfold extract_transactions at h
  cases hp : processPages [] pages with
  | none => rw [hp] at h; exact absurd h (by simp)
  | some ts =>
    rw [hp] at h
    rcases mem_processPages pages hp h with hmem | hv
    · exact absurd hmem (by simp)
    · exact hv

/-! ## An `is_amount`-validated balance always converts to a float -/

lemma isDigit_not_ws {c : Char} (h : c.isDigit = true) : c.isWhitespace = false := by
  cases hw : c.isWhitespace with
  | false => rfl
  | true =>
    exfalso
    have hw2 : c = ' ' ∨ c = '\t' ∨ c = '\r' ∨ c = '\n' := by
      have := hw
      simp only [Char.isWhitespace, Bool.or_eq_true, decide_eq_true_eq] at this
      tauto
    have hd : c.isDigit = false := by
      rcases hw2 with h1 | h1 | h1 | h1 <;> rw [h1] <;> decide
    rw [hd] at h
    exact absurd h (by simp)

lemma specDigits13Frac_head_last {l : List Char} (h : specDigits13Frac l = true) :
    (∃ c r, l = c :: r ∧ c.isDigit = true) ∧
      (∃ c r, l.reverse = c :: r ∧ c.isDigit = true) := by
  unfold specDigits13Frac at h
  simp only [Bool.and_eq_true, decide_eq_true_eq] at h
  obtain ⟨⟨h1, -⟩, hfrac⟩ := h
  have hsplit := List.takeWhile_append_dropWhile Char.isDigit l
  have halltw : (l.takeWhile Char.isDigit).all Char.isDigit = true := List.all_takeWhile
  constructor
  · cases htw : l.takeWhile Char.isDigit with
    | nil => rw [htw] at h1; simp at h1
    | cons t0 tw2 =>
      refine ⟨t0, tw2 ++ l.dropWhile Char.isDigit, ?_, ?_⟩
      · conv_lhs => rw [← hsplit]
        rw [htw]
        simp
      · rw [htw] at halltw
        exact (List.all_eq_true.mp halltw) t0 (List.mem_cons_self ..)
  · rcases specFracOpt_shape _ hfrac with hdw | ⟨d1, d2, hdw, -, hd2⟩
    · have hrev : l.reverse = (l.takeWhile Char.isDigit).reverse := by
        conv_lhs => rw [← hsplit]
        rw [hdw]
        simp
      cases htwr : (l.takeWhile Char.isDigit).reverse with
      | nil =>
        have h0 : l.takeWhile Char.isDigit = [] := by
          have := congrArg List.reverse htwr
          simpa using this
        rw [h0] at h1
        simp at h1
      | cons c r =>
        refine ⟨c, r, by rw [hrev, htwr], ?_⟩
        have hcmem : c ∈ l.takeWhile Char.isDigit := by
          rw [← List.mem_reverse, htwr]
          exact List.mem_cons_self ..
        exact (List.all_eq_true.mp halltw) c hcmem
    · refine ⟨d2, d1 :: '.' :: (l.takeWhile Char.isDigit).reverse, ?_, hd2⟩
      conv_lhs => rw [← hsplit]
      rw [hdw]
      simp

lemma wsStrip_id {cs : List Char}
    (hh : ∀ c r, cs = c :: r → c.isWhitespace = false)
    (hl : ∀ c r, cs.reverse = c :: r → c.isWhitespace = false) :
    ((cs.dropWhile Char.isWhitespace).reverse.dropWhile Char.isWhitespace).reverse = cs := by
  have e1 : cs.dropWhile Char.isWhitespace = cs := by
    cases hcs : cs with
    | nil => rfl
    | cons c r =>
      rw [List.dropWhile_cons, hh c r hcs]
      simp
  rw [e1]
  have e2 : cs.reverse.dropWhile Char.isWhitespace = cs.reverse := by
    cases hcs : cs.reverse with
    | nil => rfl
    | cons c r =>
      rw [List.dropWhile_cons, hl c r hcs]
      simp
  rw [e2, List.reverse_reverse]

lemma pyFloatCore_of_13 {l : List Char} (h : specDigits13Frac l = true) :
    pyFloatCore l = true := by
  unfold specDigits13Frac at h
  simp only [Bool.and_eq_true, decide_eq_true_eq] at h
  obtain ⟨⟨h1, -⟩, hfrac⟩ := h
  have hne : (l.takeWhile Char.isDigit).isEmpty = false := by
    cases hE : l.takeWhile Char.isDigit with
    | nil => rw [hE] at h1; simp at h1
    | cons a b => rfl
  unfold pyFloatCore
  rcases specFracOpt_shape _ hfrac with hdw | ⟨d1, d2, hdw, hd1, hd2⟩
  · rw [hdw]
    simp [hne]
  · rw [hdw]
    simp [hne, hd1, hd2]

lemma pyFloatOk_of_specNum13Body {cs : List Char} (h : specNum13Body cs = true) :
    pyFloatOk (String.mk cs) = true := by
  unfold pyFloatOk
  have hdata : (String.mk cs).data = cs := rfl
  rw [hdata]
  cases cs with
  | nil => exact absurd h (by decide)
  | cons c rest =>
    by_cases hc : c = '-'
    · rw [specNum13Body, if_pos hc] at h
      obtain ⟨⟨cH, rH, hHeq, hHdig⟩, ⟨cL, rL, hLeq, hLdig⟩⟩ := specDigits13Frac_head_last h
      have hstrip :
          (((c :: rest).dropWhile Char.isWhitespace).reverse.dropWhile
            Char.isWhitespace).reverse = c :: rest := by
        apply wsStrip_id
        · intro a r ha
          injection ha with ha1 _
          rw [← ha1, hc]
          decide
        · intro a r ha
          rw [List.reverse_cons, hLeq] at ha
          have : a = cL := by
            have := congrArg List.head? ha
            simpa using this.symm
          rw [this]
          exact isDigit_not_ws hLdig
      rw [hstrip]
      have hsign : pyStripSign (c :: rest) = rest := by
        rw [pyStripSign, if_pos (by rw [hc]; decide)]
      rw [hsign]
      exact pyFloatCore_of_13 h
    · rw [specNum13Body, if_neg hc] at h
      obtain ⟨⟨cH, rH, hHeq, hHdig⟩, ⟨cL, rL, hLeq, hLdig⟩⟩ := specDigits13Frac_head_last h
      have hcdig : c.isDigit = true := by
        injection hHeq with ha1 _
        rw [ha1]
        exact hHdig
      have hstrip :
          (((c :: rest).dropWhile Char.isWhitespace).reverse.dropWhile
            Char.isWhitespace).reverse = c :: rest := by
        apply wsStrip_id
        · intro a r ha
          injection ha with ha1 _
          rw [← ha1]
          exact isDigit_not_ws hcdig
        · intro a r ha
          rw [hLeq] at ha
          injection ha with ha1 _
          rw [← ha1]
          exact isDigit_not_ws hLdig
      rw [hstrip]
      have hsign : pyStripSign (c :: rest) = c :: rest := by
        rw [pyStripSign, if_neg ?_]
        simp only [Bool.or_eq_true, decide_eq_true_eq, not_or]
        constructor
        · intro he
          rw [he] at hcdig
          exact absurd hcdig (by decide)
        · intro he
          rw [he] at hcdig
          exact absurd hcdig (by decide)
      rw [hsign]
      exact pyFloatCore_of_13 h

lemma balanceCellOk_of_is_amount (s : String) (h : is_amount s = true) :
    balanceCellOk s = true := by
  have h13 : specNum13Form s = true := by
    rw [← is_amount_eq_13]
    exact h
  unfold specNum13Form at h13
  unfold balanceCellOk
  exact pyFloatOk_of_specNum13Body h13

/-! ## The text-fallback loop emits exactly the retained groups -/

lemma closeGroup_eq (acc : List Txn) (d : List String) :
    closeGroup acc d = acc ++ ([d].filter keepGroup).map mkTextTxn := by
  by_cases h8 : 8 ≤ d.length
  · by_cases hv : (is_date (mkTextTxn d).txnDate && is_amount (mkTextTxn d).balance) = true
    · simp [closeGroup, keepGroup, h8, hv]
    · simp [closeGroup, keepGroup, h8, hv]
  · simp [closeGroup, keepGroup, h8]

lemma textLoop_eq (lines : List String) :
    ∀ (acc : List Txn) (cur : Bool) (d : List String),
      textLoop acc cur d lines =
        acc ++ ((textGroupsAux cur d lines).filter keepGroup).map mkTextTxn := by
  induction lines with
  | nil =>
    intro acc cur d
    cases cur with
    | false => simp [textLoop, textGroupsAux]
    | true => simp [textLoop, textGroupsAux, closeGroup_eq]
  | cons line rest ih =>
    intro acc cur d
    unfold textLoop textGroupsAux
    by_cases h1 : pyStrip line = ""
    · rw [if_pos h1, if_pos h1]
      exact ih acc cur d
    · rw [if_neg h1, if_neg h1]
      by_cases h2 : isSerialLine (pyStrip line) = true
      · rw [if_pos h2, if_pos h2]
        cases cur with
        | false =>
          rw [if_neg (by simp), if_neg (by simp), ih acc true [pyStrip line]]
          simp
        | true =>
          rw [if_pos rfl, if_pos rfl, ih (closeGroup acc d) true [pyStrip line],
            closeGroup_eq]
          by_cases hk : keepGroup d = true <;> simp [List.filter_cons, hk]
      · rw [if_neg h2, if_neg h2]
        cases cur with
        | false =>
          rw [if_neg (by simp), if_neg (by simp)]
          exact ih acc false d
        | true =>
          rw [if_pos rfl, if_pos rfl]
          exact ih acc true (d ++ [pyStrip line])

lemma cursorAfter_eq (keys : List String) : ∀ n, cursorAfter keys n = n := by
  intro n
  induction n with
  | zero => rfl
  | succ m ih =>
    show (get_genai_model keys (cursorAfter keys m)).2 = m + 1
    rw [ih]
    rfl

/-! ## The claims -/

/-- C1 (code bug): when the model operation fails on all 3 attempts with a
"429"-bearing error, `safe_generate` does raise the exhausted
`HTTPException(429)`, but both endpoint handlers catch it with
`except Exception` and re-raise it as a 500, so the HTTP response carries
status 500 (with the exhausted message embedded in the detail), not the
distinct 429 the spec promises. -/
theorem exhausted_retries_surface_as_500 :
    analyze_transaction
        (fun _ => (.error (.exc "429 Resource has been exhausted") : Except PyExc Unit)) =
      .error (.httpExc 500
        "Categorization failed: 429: All API keys are rate-limited. Please try again later.") ∧
    responseStatus (analyze_transaction
      (fun _ => (.error (.exc "429 Resource has been exhausted") : Except PyExc Unit))) = 500 ∧
    responseStatus (analyze_insights
      (fun _ => (.error (.exc "429 Resource has been exhausted") : Except PyExc Unit))) = 500 :=
  ⟨rfl, rfl, rfl⟩

/-- C2 (counterexample): "1234" is of the claimed form (optional minus, one
or more digits, optional `.dd`, after comma stripping), yet `is_amount`
rejects it — the regex only ever accepts 1–3 integer digits because commas
are stripped before the `(,\d{3})*` groups could match. -/
theorem is_amount_digits_claim_counterexample :
    specNumericForm "1234" = true ∧ is_amount "1234" = false := by
  constructor
  · decide
  · decide

/-- C2 (amended): `is_amount` accepts exactly the strings whose comma-stripped
form is an optional minus, one to THREE digits, and an optional two-digit
fraction; every non-numeric string (not of the claimed digits form at all)
is rejected. -/
theorem is_amount_characterization (s : String) :
    (is_amount s = true ↔ specNum13Form s = true) ∧
    (specNumericForm s = false → is_amount s = false) := by
  constructor
  · rw [is_amount_eq_13]
  · intro hN
    cases hA : is_amount s with
    | false => rfl
    | true =>
      have h13 : specNum13Form s = true := by
        rw [← is_amount_eq_13]
        exact hA
      have hNum := specNum13_imp_numeric s h13
      rw [hN] at hNum
      exact absurd hNum (by simp)

/-- Witness for C2's amended theorem at concrete inputs. -/
theorem is_amount_characterization_witness :
    is_amount "12.50" = true ∧ is_amount "@@" = false :=
  ⟨(is_amount_characterization "12.50").1.mpr (by decide),
   (is_amount_characterization "@@").2 (by decide)⟩

/-- C3: the retry wrapper with its fixed bound of 3 attempts: two
"429"-bearing failures followed by a success return the success after
exactly 3 calls; three "429"-bearing failures raise the exhausted/429
signal after exactly 3 calls; a non-"429" failure propagates immediately
after a single call. -/
theorem safe_generate_retry_behaviour {α : Type} (op : Nat → Except PyExc α)
    (e0 e1 e : PyExc) (a : α) :
    ((op 0 = .error e0 ∧ has429 (excStr e0) = true) →
      (op 1 = .error e1 ∧ has429 (excStr e1) = true) →
      op 2 = .ok a → safe_generate op = (.ok a, 3)) ∧
    ((∀ i, i < 3 → ∃ ei, op i = .error ei ∧ has429 (excStr ei) = true) →
      safe_generate op = (.error exhaustedExc, 3)) ∧
    ((op 0 = .error e ∧ has429 (excStr e) = false) → safe_generate op = (.error e, 1)) := by
  refine ⟨?_, ?_, ?_⟩
  · rintro ⟨h0, h0q⟩ ⟨h1, h1q⟩ h2
    simp [safe_generate, safeGenAux, h0, h1, h2, h0q, h1q]
  · intro h
    obtain ⟨f0, h0, h0q⟩ := h 0 (by omega)
    obtain ⟨f1, h1, h1q⟩ := h 1 (by omega)
    obtain ⟨f2, h2, h2q⟩ := h 2 (by omega)
    simp [safe_generate, safeGenAux, h0, h1, h2, h0q, h1q, h2q]
  · rintro ⟨h0, h0q⟩
    simp [safe_generate, safeGenAux, h0, h0q]

/-- Witness for C3 at three concrete operations. -/
theorem safe_generate_retry_behaviour_witness :
    safe_generate
        (fun i => if i = 2 then (.ok 7 : Except PyExc Nat) else .error (.exc "429 quota")) =
      (.ok 7, 3) ∧
    safe_generate (fun _ => (.error (.exc "got 429") : Except PyExc Nat)) =
      (.error exhaustedExc, 3) ∧
    safe_generate (fun _ => (.error (.exc "boom") : Except PyExc Nat)) =
      (.error (.exc "boom"), 1) := by
  refine ⟨?_, ?_, ?_⟩
  · exact (safe_generate_retry_behaviour
      (fun i => if i = 2 then (.ok 7 : Except PyExc Nat) else .error (.exc "429 quota"))
      (.exc "429 quota") (.exc "429 quota") (.exc "x") 7).1
      ⟨rfl, by decide⟩ ⟨rfl, by decide⟩ rfl
  · exact (safe_generate_retry_behaviour
      (fun _ => (.error (.exc "got 429") : Except PyExc Nat))
      (.exc "x") (.exc "x") (.exc "x") 0).2.1
      (fun i _ => ⟨.exc "got 429", rfl, by decide⟩)
  · exact (safe_generate_retry_behaviour
      (fun _ => (.error (.exc "boom") : Except PyExc Nat))
      (.exc "x") (.exc "x") (.exc "boom") 0).2.2 ⟨rfl, by decide⟩

/-- C4: every record appended to the transactions sequence by
`extract_transactions` — via the table path or the text-fallback path — has
a Transaction Date that passes `is_date` and a Balance that passes
`is_amount`. -/
theorem extract_transactions_validated (pages : List Page) (t : Txn)
    (h : t ∈ extract_transactions pages) :
    is_date t.txnDate = true ∧ is_amount t.balance = true :=
  extract_valid h

/-- Witness for C4 at a one-table-page PDF. -/
theorem extract_transactions_validated_witness :
    is_date (Txn.mk "1" "01/01/2024" "02/01/2024" "-" "UPI pay" "100.00" "" "500.00").txnDate
        = true ∧
    is_amount (Txn.mk "1" "01/01/2024" "02/01/2024" "-" "UPI pay" "100.00" "" "500.00").balance
        = true :=
  extract_transactions_validated
    [⟨[[[some "1", some "01/01/2024", some "02/01/2024", some "-", some "UPI  pay ",
        some "100.00", some "", some "500.00"]]], none⟩]
    (Txn.mk "1" "01/01/2024" "02/01/2024" "-" "UPI pay" "100.00" "" "500.00")
    (by decide)

/-- C5: the text-fallback parser emits exactly the accumulated transaction
groups that pass the retention test (`keepGroup`: at least 8 accumulated
lines and date/amount validation), in page order, each built positionally by
`mkTextTxn`: line 0 = serial, line 1 = value date, line 2 = transaction
date, line 3 = cheque number, lines `[4:-3]` joined with single spaces =
remarks, last three lines = withdrawal, deposit, balance. In particular a
group that accumulated fewer than 8 lines is never added, and every emitted
record's fields come from its actually accumulated group. -/
theorem text_group_positional (acc : List Txn) (text : String) :
    textFallback acc text =
      acc ++ ((textGroups (pySplitLines text)).filter keepGroup).map mkTextTxn :=
  textLoop_eq (pySplitLines text) acc false []

/-- C6: a table row with fewer than 8 cells, or containing an absent (`None`)
cell, leaves the transactions sequence unchanged — it is never added. -/
theorem short_or_incomplete_row_not_added (acc : List Txn) (row : List (Option String))
    (h : row.length < 8 ∨ none ∈ row) : processRow acc row = acc := by
  unfold processRow
  split
  · rename_i hc
    exfalso
    simp only [Bool.and_eq_true, decide_eq_true_eq, List.all_eq_true] at hc
    obtain ⟨h1, h2⟩ := hc
    rcases h with hlt | hnone
    · omega
    · have := h2 none hnone
      simp at this
  · rfl

/-- Witness for C6 at a 7-cell row and at a row with a `None` cell. -/
theorem short_or_incomplete_row_not_added_witness :
    processRow [] [some "1", some "2", some "3", some "4", some "5", some "6", some "7"] = [] ∧
    processRow []
      [some "1", some "2", some "3", some "4", some "5", some "6", none, some "8"] = [] :=
  ⟨short_or_incomplete_row_not_added []
      [some "1", some "2", some "3", some "4", some "5", some "6", some "7"]
      (Or.inl (by decide)),
   short_or_incomplete_row_not_added []
      [some "1", some "2", some "3", some "4", some "5", some "6", none, some "8"]
      (Or.inr (by decide))⟩

/-- C7: with a non-empty pool of N keys, the i-th call (1-indexed) to
`get_genai_model` configures the client with the key at position
`(i-1) mod N`, and the cursor advances by one on every call (after i calls
it equals i), unconditionally. -/
theorem key_rotation_round_robin (keys : List String) (h : keys ≠ []) (i : Nat)
    (hi : 1 ≤ i) :
    keyOfCall keys i = keys.getD ((i - 1) % keys.length) "" ∧
    cursorAfter keys i = i := by
  refine ⟨?_, cursorAfter_eq keys i⟩
  unfold keyOfCall
  rw [cursorAfter_eq]
  rfl

/-- Witness for C7: the 3rd call on a 2-key pool wraps around to the first
key. -/
theorem key_rotation_round_robin_witness :
    keyOfCall ["alpha", "beta"] 3 = ["alpha", "beta"].getD ((3 - 1) % ["alpha", "beta"].length) "" ∧
    cursorAfter ["alpha", "beta"] 3 = 3 :=
  key_rotation_round_robin ["alpha", "beta"] (by simp) 3 (by omega)

/-- C8: when extraction yields zero transactions, `main` reports that no
transactions were found, and `save_to_csv` produces no output file. -/
theorem no_transactions_no_output (pages : List Page)
    (h : extract_transactions pages = []) :
    main pages = RunResult.noTransactions ∧
    save_to_csv (extract_transactions pages) = none := by
  constructor
  · unfold main
    rw [h]
    rfl
  · rw [h]
    rfl

/-- Witness for C8 at the empty document. -/
theorem no_transactions_no_output_witness :
    main [] = RunResult.noTransactions ∧ save_to_csv (extract_transactions []) = none :=
  no_transactions_no_output [] rfl

/-- C9: every string starting with the `\d{2}/\d{2}/\d{4}` pattern passes
`is_date` (no semantic range check, so "32/13/2099" passes); the empty
string and the lone "-" placeholder fail. -/
theorem is_date_characterization :
    (∀ s : String, matchesDatePrefix s.data = true → is_date s = true) ∧
    is_date "32/13/2099" = true ∧ is_date "" = false ∧ is_date "-" = false := by
  refine ⟨?_, by decide, by decide, by decide⟩
  intro s hm
  by_cases h1 : s = ""
  · rw [h1] at hm
    exact absurd hm (by decide)
  by_cases h2 : s = "-"
  · rw [h2] at hm
    exact absurd hm (by decide)
  · simp only [is_date, h1, h2]
    simp only [decide_False, Bool.or_self, Bool.false_eq_true, if_false]
    exact hm

/-- Witness for C9's universally quantified part. -/
theorem is_date_characterization_witness :
    matchesDatePrefix "01/02/2003".data = true ∧ is_date "01/02/2003" = true :=
  ⟨by decide, is_date_characterization.1 "01/02/2003" (by decide)⟩

/-- C10: every record produced by `extract_transactions` has a non-empty
Balance cell that, after comma stripping, is accepted by the float
conversion in `save_to_csv` (it passed `is_amount` at retention time), so
the balance-conversion failure branch is unreachable on extractor output. -/
theorem balance_conversion_total (pages : List Page) (t : Txn)
    (h : t ∈ extract_transactions pages) :
    t.balance ≠ "" ∧ balanceCellOk t.balance = true := by
  obtain ⟨-, hA⟩ := extract_valid h
  refine ⟨?_, balanceCellOk_of_is_amount _ hA⟩
  intro he
  rw [he] at hA
  exact absurd hA (by decide)

/-- Witness for C10 at a one-text-page PDF. -/
theorem balance_conversion_total_witness :
    (Txn.mk "1" "01/01/2024" "02/01/2024" "-" "UPI pay" "100.00" "0.00" "500.00").balance ≠ "" ∧
    balanceCellOk
      (Txn.mk "1" "01/01/2024" "02/01/2024" "-" "UPI pay" "100.00" "0.00" "500.00").balance
      = true :=
  balance_conversion_total
    [⟨[], some "1\n01/01/2024\n02/01/2024\n-\nUPI pay\n100.00\n0.00\n500.00"⟩]
    (Txn.mk "1" "01/01/2024" "02/01/2024" "-" "UPI pay" "100.00" "0.00" "500.00")
    (by decide)

end Spec2Proof
